import Mathlib

/-!
Verification development for the `asli` package (Amundsen Sea Low Index).

Part 1 embeds the code that is present in the repository:
`asli/data.py` (request-area expansion, ERA5 variable-list construction)
and `asli/utils.py` (the joblib/tqdm context manager).

Part 2 models the detection core (`ASLICalculator`, `find_minimum`,
background correction, table import/export), whose module is referenced
by the package `__init__` and by the tests but is not among the provided
source files; those definitions carry doc comments starting
`Modelled from the spec:`.

Pressure values and coordinates are embedded as rationals.
-/

/-- The `area` dictionary of `asli.data`: bounding coordinates with keys
north, west, south, east. -/
structure RequestArea where
  north : ℚ
  west : ℚ
  south : ℚ
  east : ℚ
deriving DecidableEq, Repr

/-- Embedding of `asli.data._get_request_area`. A `none` area means the
Python `None` (whole earth); a `none` border means the Python `None`.
With an area and a border, the source returns a dict with
north+border, south-border, east+border, west-border; with a border of
`None` it returns the area unchanged; with no area it returns `None`. -/
def _get_request_area : Option RequestArea → Option ℚ → Option RequestArea
  | some area, none => some area
  | some area, some border =>
      some { north := area.north + border
             south := area.south - border
             east := area.east + border
             west := area.west - border }
  | none, _ => none

/-- The latitude-clamping property that the spec asserts of region
expansion: latitude never exceeds 90 or goes below -90. -/
def latClamped (r : RequestArea) : Prop :=
  r.north ≤ 90 ∧ -90 ≤ r.south

instance : DecidablePred latClamped := fun r =>
  inferInstanceAs (Decidable (r.north ≤ 90 ∧ -90 ≤ r.south))

/-- The fixed order in which `asli.data.get_era5_monthly` lists the four
downloadable CDS variable names. -/
def fixedVariableOrder : List String :=
  ["10m_u_component_of_wind", "10m_v_component_of_wind",
   "2m_temperature", "mean_sea_level_pressure"]

/-- Embedding of the variable-list construction in
`asli.data.get_era5_monthly` (lines 76-82): a fixed-order list of
optional entries, each present exactly when the corresponding short
name occurs in `vars`, followed by removal of the `None` entries. -/
def era5RequestVariables (vars : List String) : List String :=
  ([if "uas" ∈ vars then some "10m_u_component_of_wind" else none,
    if "vas" ∈ vars then some "10m_v_component_of_wind" else none,
    if "tas" ∈ vars then some "2m_temperature" else none,
    if "msl" ∈ vars then some "mean_sea_level_pressure" else none]
   : List (Option String)).filterMap id

/-- The global `joblib.parallel.BatchCompletionCallBack` class slot:
either the library default or the wrapper class that `tqdm_joblib`
installs (the wrapper subclasses whatever class was installed when the
context manager was entered). -/
inductive CallbackClass where
  | batchCompletion : CallbackClass
  | tqdmWrapped : CallbackClass → CallbackClass
deriving DecidableEq, Repr

/-- The mutable state that `asli.utils.tqdm_joblib` touches: the global
callback-class slot of `joblib.parallel` and whether the tqdm progress
object passed in has been closed. -/
structure UtilState where
  callbackClass : CallbackClass
  tqdmClosed : Bool
deriving DecidableEq, Repr

/-- Embedding of `asli.utils.tqdm_joblib`. The body of the `with` block
is a state transformer that may finish normally or raise (modelled with
`Except`). Entering saves the old callback class and installs the
wrapper built over it; the `finally` clause restores the saved class and
closes the tqdm object, on both the normal and the exceptional path. -/
def tqdm_joblib {ε α : Type} (s : UtilState)
    (body : UtilState → Except ε α × UtilState) :
    Except ε α × UtilState :=
  let old := s.callbackClass
  let entered := { s with callbackClass := CallbackClass.tqdmWrapped old }
  let r := body entered
  (r.1, { r.2 with callbackClass := old, tqdmClosed := true })

/-- Claim C3 counterexample: for the concrete area
(north 85, west -175, south -85, east 175) and border 10,
`_get_request_area` returns north 95 and south -95 by plain arithmetic,
violating the clamping at the 90 and -90 latitude domain edges that the
claim asserts (and the resulting west of -185 crosses the longitude seam
with no wrap-around handling). -/
theorem c3_counterexample :
    _get_request_area
        (some { north := 85, west := -175, south := -85, east := 175 })
        (some 10)
      = some { north := 95, west := -185, south := -95, east := 185 } ∧
    ¬ latClamped { north := 95, west := -185, south := -95, east := 185 } := by
  constructor
  · simp only [_get_request_area, Option.some.injEq, RequestArea.mk.injEq]
    norm_num
  · intro h
    have h1 := h.1
    norm_num at h1

/-- Claim C3 (amended): expanding an area by a border adds the border in
degrees to north and east and subtracts it from south and west by plain
arithmetic, with no clamping at the latitude domain edges and no
longitude wrap-around handling; a `none` border returns the area
unchanged and a `none` area yields `none`. -/
theorem c3_amended (a : RequestArea) (b : ℚ) :
    _get_request_area (some a) (some b)
      = some { north := a.north + b, west := a.west - b,
               south := a.south - b, east := a.east + b } ∧
    _get_request_area (some a) none = some a ∧
    ∀ ob : Option ℚ, _get_request_area none ob = none := by
  refine ⟨rfl, rfl, fun ob => ?_⟩
  cases ob <;> rfl

/-- Claim C10: whenever `tqdm_joblib` finishes, normally or through an
exception raised by its body, the global callback-class slot holds
exactly the value it had before entry and the tqdm object is closed.
Determinism aside, the body is arbitrary: it may itself overwrite the
slot or leave the wrapper in place, and it may raise. -/
theorem c10_tqdm_joblib_restores {ε α : Type} (s : UtilState)
    (body : UtilState → Except ε α × UtilState) :
    (tqdm_joblib s body).2.callbackClass = s.callbackClass ∧
    (tqdm_joblib s body).2.tqdmClosed = true := by
  constructor <;> rfl

/-- Claim C9: the request variable list is a subsequence of the fixed
order, contains each full name exactly when the corresponding short name
occurs in `vars`, depends only on which short names occur (not on their
order or multiplicity), and silently drops unrecognized names, yielding
an empty list (not an error) when no short name is recognized. -/
theorem c9_era5_variables (vars : List String) :
    (era5RequestVariables vars).Sublist fixedVariableOrder ∧
    ("10m_u_component_of_wind" ∈ era5RequestVariables vars ↔ "uas" ∈ vars) ∧
    ("10m_v_component_of_wind" ∈ era5RequestVariables vars ↔ "vas" ∈ vars) ∧
    ("2m_temperature" ∈ era5RequestVariables vars ↔ "tas" ∈ vars) ∧
    ("mean_sea_level_pressure" ∈ era5RequestVariables vars ↔ "msl" ∈ vars) ∧
    (∀ vars₂ : List String, (∀ s, s ∈ vars ↔ s ∈ vars₂) →
      era5RequestVariables vars = era5RequestVariables vars₂) ∧
    (("uas" ∉ vars ∧ "vas" ∉ vars ∧ "tas" ∉ vars ∧ "msl" ∉ vars) →
      era5RequestVariables vars = []) := by
  have hcongr : ∀ vars₂ : List String, (∀ s, s ∈ vars ↔ s ∈ vars₂) →
      era5RequestVariables vars = era5RequestVariables vars₂ := by
    intro vars₂ hiff
    have e1 : ("uas" ∈ vars₂) = ("uas" ∈ vars) := propext (hiff "uas").symm
    have e2 : ("vas" ∈ vars₂) = ("vas" ∈ vars) := propext (hiff "vas").symm
    have e3 : ("tas" ∈ vars₂) = ("tas" ∈ vars) := propext (hiff "tas").symm
    have e4 : ("msl" ∈ vars₂) = ("msl" ∈ vars) := propext (hiff "msl").symm
    simp only [era5RequestVariables, e1, e2, e3, e4]
  have rest :
      (era5RequestVariables vars).Sublist fixedVariableOrder ∧
      ("10m_u_component_of_wind" ∈ era5RequestVariables vars ↔ "uas" ∈ vars) ∧
      ("10m_v_component_of_wind" ∈ era5RequestVariables vars ↔ "vas" ∈ vars) ∧
      ("2m_temperature" ∈ era5RequestVariables vars ↔ "tas" ∈ vars) ∧
      ("mean_sea_level_pressure" ∈ era5RequestVariables vars ↔ "msl" ∈ vars) ∧
      (("uas" ∉ vars ∧ "vas" ∉ vars ∧ "tas" ∉ vars ∧ "msl" ∉ vars) →
        era5RequestVariables vars = []) := by
    by_cases h1 : "uas" ∈ vars <;>
    by_cases h2 : "vas" ∈ vars <;>
    by_cases h3 : "tas" ∈ vars <;>
    by_cases h4 : "msl" ∈ vars <;>
    refine ⟨?_, ?_, ?_, ?_, ?_, ?_⟩ <;>
    simp [era5RequestVariables, h1, h2, h3, h4] <;>
    decide
  exact ⟨rest.1, rest.2.1, rest.2.2.1, rest.2.2.2.1, rest.2.2.2.2.1,
         hcongr, rest.2.2.2.2.2⟩

/-- Claim C9 witness: a list with no recognized short name yields the
empty request list. -/
theorem c9_era5_variables_witness : era5RequestVariables ["junk"] = [] :=
  (c9_era5_variables ["junk"]).2.2.2.2.2.2
    ⟨by decide, by decide, by decide, by decide⟩

/-- Modelled from the spec: a single time-step 2D field after masking.
Rows are latitudes in ascending coordinate order, columns are longitudes
in ascending coordinate order; `none` is a missing (masked or undefined)
cell. The module `asli/asli.py` holding the detection core is not among
the provided sources, so the core is modelled from the spec throughout
this part. -/
abbrev Field2D := List (List (Option ℚ))

/-- Modelled from the spec: `apply_mask(grid, mask, threshold)` of the
missing GridStore component sets to missing any cell whose land fraction
exceeds the threshold and leaves ocean cells untouched, returning a new
view without mutating the input. -/
def apply_mask (field : List (List ℚ)) (mask : List (List ℚ))
    (threshold : ℚ) : Field2D :=
  List.zipWith
    (fun frow mrow =>
      List.zipWith (fun v frac => if threshold < frac then none else some v)
        frow mrow)
    field mask

/-- Modelled from the spec: the valid cells of one field row, scanned in
ascending longitude order; `i` is the latitude index of the row and `j`
the longitude index of the first entry. -/
def rowCells (i : ℕ) : ℕ → List (Option ℚ) → List (ℕ × ℕ × ℚ)
  | _, [] => []
  | j, none :: rest => rowCells i (j + 1) rest
  | j, some v :: rest => (i, j, v) :: rowCells i (j + 1) rest

/-- Modelled from the spec: all valid cells of a field, scanned in the
fixed traversal order of the MinimumFinder contract: ascending latitude,
then ascending longitude. -/
def gridCells : ℕ → Field2D → List (ℕ × ℕ × ℚ)
  | _, [] => []
  | i, row :: rest => rowCells i 0 row ++ gridCells (i + 1) rest

/-- Modelled from the spec: the list of valid cells of a field in
traversal order. -/
def cellsOf (f : Field2D) : List (ℕ × ℕ × ℚ) := gridCells 0 f

/-- Modelled from the spec: the selection step of the minimum scan; the
candidate replaces the best cell so far only when strictly smaller, so
the first cell of the traversal wins ties. -/
def chooseBetter : Option (ℕ × ℕ × ℚ) → (ℕ × ℕ × ℚ) → Option (ℕ × ℕ × ℚ)
  | none, c => some c
  | some b, c => if c.2.2 < b.2.2 then some c else some b

/-- Modelled from the spec: `find_minimum(field_2d)` of the missing
MinimumFinder scans all valid cells in the fixed traversal order and
selects the cell with the smallest pressure value; `none` models the
`NoMinimumError` raised when the field is entirely missing. The result
is (latitude index, longitude index, value). -/
def find_minimum (f : Field2D) : Option (ℕ × ℕ × ℚ) :=
  (cellsOf f).foldl chooseBetter none

/-- The field holds a valid (non-missing) cell of value `v` at latitude
index `i` and longitude index `j`. -/
def validCellAt (f : Field2D) (i j : ℕ) (v : ℚ) : Prop :=
  (f[i]?.bind fun row => row[j]?) = some (some v)

instance (f : Field2D) (i j : ℕ) (v : ℚ) : Decidable (validCellAt f i j v) :=
  inferInstanceAs (Decidable (_ = _))

/-- Modelled from the spec: the values of the valid cells of a field. -/
def validValues (f : Field2D) : List ℚ := f.flatten.filterMap id

/-- Modelled from the spec: the latitude band between row indices `lo`
and `hi` (inclusive), spanning the full longitude extent of the sliced
search region, used for the background reference. -/
def bandField (lo hi : ℕ) (f : Field2D) : Field2D :=
  (f.drop lo).take (hi + 1 - lo)

/-- Modelled from the spec: the mean of the valid cells of a field, or
`none` when there are no valid cells (the fatal empty-background case of
the BackgroundCorrector contract). -/
def meanValid (f : Field2D) : Option ℚ :=
  let vs := validValues f
  if vs.isEmpty then none else some (vs.sum / vs.length)

/-- Modelled from the spec: the background reference pressure, the
average of the valid cells of the latitude band; by construction it
takes only the field and the band, never the detected minimum. -/
def reference (lo hi : ℕ) (f : Field2D) : Option ℚ :=
  meanValid (bandField lo hi f)

/-- Modelled from the spec: `relative_pressure(field_2d, detected_value)`
of the missing BackgroundCorrector returns detected_value minus the
band-mean reference, propagating the empty-background failure. -/
def relative_pressure (lo hi : ℕ) (f : Field2D) (detected : ℚ) : Option ℚ :=
  (reference lo hi f).map (fun r => detected - r)

/-- Modelled from the spec: one row of the result table (7 columns):
timestamp, longitude and latitude of the detected minimum, actual center
pressure, relative center pressure, background reference pressure, and
the validity flag. For an invalid row the numeric fields hold a
placeholder and the validity flag is false. -/
structure DetectionRecord where
  time : ℕ
  lon : ℚ
  lat : ℚ
  actCenPres : ℚ
  relCenPres : ℚ
  refPres : ℚ
  valid : Bool
deriving DecidableEq, Repr

/-- Modelled from the spec: one input time step, a timestamp and the raw
(already region-sliced, unmasked) 2D pressure field. -/
structure TimeStep where
  time : ℕ
  field : List (List ℚ)
deriving DecidableEq, Repr

/-- Modelled from the spec: the configuration of the orchestration
component: land-sea mask over the sliced region, mask threshold, the
latitude band of the background correction, and the coordinate vectors
used to report the position of the minimum. -/
structure AslParams where
  mask : List (List ℚ)
  threshold : ℚ
  bandLo : ℕ
  bandHi : ℕ
  lats : List ℚ
  lons : List ℚ
deriving DecidableEq, Repr

/-- Modelled from the spec: the per-time-step pipeline core: mask, find
the minimum, background-correct. `none` models a per-step
`NoMinimumError`-class failure (no valid cell, or empty background). -/
def stepCore (p : AslParams) (field : List (List ℚ)) :
    Option (ℚ × ℚ × ℚ × ℚ × ℚ) :=
  let m := apply_mask field p.mask p.threshold
  match find_minimum m with
  | none => none
  | some (i, j, v) =>
    match reference p.bandLo p.bandHi m with
    | none => none
    | some r => some (p.lons.getD j 0, p.lats.getD i 0, v, v - r, r)

/-- Modelled from the spec: one record per input time step; a failed
step is recorded as a row with the validity flag false rather than
aborting the pass. -/
def step (p : AslParams) (ts : TimeStep) : DetectionRecord :=
  match stepCore p ts.field with
  | none =>
      { time := ts.time, lon := 0, lat := 0, actCenPres := 0,
        relCenPres := 0, refPres := 0, valid := false }
  | some (lon, lat, act, rel, r) =>
      { time := ts.time, lon := lon, lat := lat, actCenPres := act,
        relCenPres := rel, refPres := r, valid := true }

/-- Modelled from the spec: the lifecycle states of the result table. -/
inductive TableState where
  | empty : TableState
  | computing : TableState
  | populated : TableState
deriving DecidableEq, Repr

/-- Modelled from the spec: the orchestration component
(`ASLICalculator`): whether grid and mask are loaded, the configuration,
the input time steps, the table state, and the accumulated table. -/
structure ASLCalc where
  loaded : Bool
  params : AslParams
  steps : List TimeStep
  state : TableState
  table : List DetectionRecord
deriving DecidableEq, Repr

/-- Modelled from the spec: the outcome of `calculate()`:
success, the recoverable already-populated warning carrying the
untouched calculator, or the fatal `NotReadyError`. -/
inductive CalcOutcome where
  | ok : ASLCalc → CalcOutcome
  | alreadyPopulated : ASLCalc → CalcOutcome
  | notReady : CalcOutcome
deriving DecidableEq, Repr

/-- Modelled from the spec: `calculate()` requires the data loaded
(`NotReadyError` otherwise), refuses to overwrite a populated table
without the force directive (recoverable warning, table untouched),
and otherwise runs the per-time-step pipeline over all steps in order,
ending in the POPULATED state. -/
def calculate (force : Bool) (c : ASLCalc) : CalcOutcome :=
  if c.loaded = false then CalcOutcome.notReady
  else if c.state = TableState.populated ∧ force = false then
    CalcOutcome.alreadyPopulated c
  else
    CalcOutcome.ok
      { c with state := TableState.populated,
               table := c.steps.map (step c.params) }

/-- Modelled from the spec: one cell of the serialized tabular record
format, typed by column kind. -/
inductive CsvCell where
  | nat : ℕ → CsvCell
  | rat : ℚ → CsvCell
  | bool : Bool → CsvCell
deriving DecidableEq, Repr

/-- Modelled from the spec: serialization of one record in the fixed,
stable column order (timestamp, lon, lat, actual, relative, reference,
validity flag). -/
def recordToRow (r : DetectionRecord) : List CsvCell :=
  [CsvCell.nat r.time, CsvCell.rat r.lon, CsvCell.rat r.lat,
   CsvCell.rat r.actCenPres, CsvCell.rat r.relCenPres,
   CsvCell.rat r.refPres, CsvCell.bool r.valid]

/-- Modelled from the spec: parsing of one serialized row, validating
column presence and types; any other shape is rejected. -/
def parseRow : List CsvCell → Option DetectionRecord
  | [CsvCell.nat t, CsvCell.rat lon, CsvCell.rat lat, CsvCell.rat act,
     CsvCell.rat rel, CsvCell.rat r, CsvCell.bool v] =>
      some { time := t, lon := lon, lat := lat, actCenPres := act,
             relCenPres := rel, refPres := r, valid := v }
  | _ => none

/-- Modelled from the spec: parsing of a serialized table, row by row;
a single malformed row rejects the whole import. -/
def parseTable : List (List CsvCell) → Option (List DetectionRecord)
  | [] => some []
  | row :: rest =>
    match parseRow row, parseTable rest with
    | some r, some rs => some (r :: rs)
    | _, _ => none

/-- Modelled from the spec: `export_table` serializes the current table
in time order with the stable column order. -/
def export_table (t : List DetectionRecord) : List (List CsvCell) :=
  t.map recordToRow

/-- Modelled from the spec: the outcome of `import_table`: success, the
recoverable already-populated warning carrying the untouched calculator,
or a validation failure. -/
inductive ImportOutcome where
  | ok : ASLCalc → ImportOutcome
  | alreadyPopulated : ASLCalc → ImportOutcome
  | invalid : ImportOutcome
deriving DecidableEq, Repr

/-- Modelled from the spec: `import_table(source)` refuses to overwrite
a populated table without the force directive (recoverable warning,
table untouched), validates column presence and types, and otherwise
replaces the table and moves to the POPULATED state. -/
def import_table (force : Bool) (c : ASLCalc) (rows : List (List CsvCell)) :
    ImportOutcome :=
  if c.state = TableState.populated ∧ force = false then
    ImportOutcome.alreadyPopulated c
  else
    match parseTable rows with
    | some recs =>
        ImportOutcome.ok
          { c with state := TableState.populated, table := recs }
    | none => ImportOutcome.invalid

/-- Strict traversal order on cells: ascending latitude index, then
ascending longitude index. -/
def cellLt (x y : ℕ × ℕ × ℚ) : Prop :=
  x.1 < y.1 ∨ (x.1 = y.1 ∧ x.2.1 < y.2.1)

lemma mem_rowCells {i : ℕ} {row : List (Option ℚ)} :
    ∀ {j a b : ℕ} {v : ℚ},
      (a, b, v) ∈ rowCells i j row ↔
        a = i ∧ ∃ k, b = j + k ∧ row[k]? = some (some v) := by
  induction row with
  | nil =>
    intro j a b v
    simp [rowCells]
  | cons o rest ih =>
    intro j a b v
    cases o with
    | none =>
      simp only [rowCells]
      rw [ih]
      constructor
      · rintro ⟨ha, k, hb, hk⟩
        exact ⟨ha, k + 1, by omega, by simpa using hk⟩
      · rintro ⟨ha, k, hb, hk⟩
        cases k with
        | zero => simp at hk
        | succ k2 => exact ⟨ha, k2, by omega, by simpa using hk⟩
    | some w =>
      simp only [rowCells, List.mem_cons]
      rw [ih]
      constructor
      · rintro (heq | ⟨ha, k, hb, hk⟩)
        · obtain ⟨ha, hb, hv⟩ : a = i ∧ b = j ∧ v = w := by
            simpa [Prod.ext_iff] using heq
          exact ⟨ha, 0, by omega, by simp [hv]⟩
        · exact ⟨ha, k + 1, by omega, by simpa using hk⟩
      · rintro ⟨ha, k, hb, hk⟩
        cases k with
        | zero =>
          left
          have hv : w = v := by simpa using hk
          simp [Prod.ext_iff, ha, hv]
          omega
        | succ k2 =>
          right
          exact ⟨ha, k2, by omega, by simpa using hk⟩

lemma mem_gridCells {f : Field2D} :
    ∀ {i a b : ℕ} {v : ℚ},
      (a, b, v) ∈ gridCells i f ↔
        ∃ k row, a = i + k ∧ f[k]? = some row ∧ row[b]? = some (some v) := by
  induction f with
  | nil =>
    intro i a b v
    simp [gridCells]
  | cons row rest ih =>
    intro i a b v
    simp only [gridCells, List.mem_append]
    constructor
    · rintro (hrow | htail)
      · obtain ⟨ha, k, hb, hk⟩ := mem_rowCells.mp hrow
        refine ⟨0, row, by omega, by simp, ?_⟩
        have : k = b := by omega
        subst this
        exact hk
      · obtain ⟨k, r2, ha, hf, hr⟩ := ih.mp htail
        exact ⟨k + 1, r2, by omega, by simpa using hf, hr⟩
    · rintro ⟨k, r2, ha, hf, hr⟩
      cases k with
      | zero =>
        left
        have hrr : row = r2 := by simpa using hf
        subst hrr
        exact mem_rowCells.mpr ⟨by omega, b, by omega, hr⟩
      | succ k2 =>
        right
        exact ih.mpr ⟨k2, r2, by omega, by simpa using hf, hr⟩

lemma mem_cellsOf {f : Field2D} {a b : ℕ} {v : ℚ} :
    (a, b, v) ∈ cellsOf f ↔ validCellAt f a b v := by
  unfold cellsOf validCellAt
  rw [mem_gridCells]
  constructor
  · rintro ⟨k, row, ha, hf, hr⟩
    have : k = a := by omega
    subst this
    simp [hf, hr]
  · intro h
    cases hf : f[a]? with
    | none => simp [hf] at h
    | some row =>
      refine ⟨a, row, by omega, hf, ?_⟩
      simpa [hf] using h

lemma rowCells_pairwise {i : ℕ} {row : List (Option ℚ)} :
    ∀ {j : ℕ}, (rowCells i j row).Pairwise cellLt := by
  induction row with
  | nil => intro j; simp [rowCells]
  | cons o rest ih =>
    intro j
    cases o with
    | none => simpa only [rowCells] using ih
    | some w =>
      simp only [rowCells]
      refine List.Pairwise.cons ?_ ih
      rintro ⟨a, b, v⟩ hc
      obtain ⟨ha, k, hb, _⟩ := mem_rowCells.mp hc
      right
      refine ⟨ha.symm, ?_⟩
      show j < b
      omega

lemma gridCells_pairwise {f : Field2D} :
    ∀ {i : ℕ}, (gridCells i f).Pairwise cellLt := by
  induction f with
  | nil => intro i; simp [gridCells]
  | cons row rest ih =>
    intro i
    simp only [gridCells]
    rw [List.pairwise_append]
    refine ⟨rowCells_pairwise, ih, ?_⟩
    rintro ⟨a, b, v⟩ ha ⟨a2, b2, v2⟩ hb
    have h1 := (mem_rowCells.mp ha).1
    obtain ⟨k, r2, ha2, _, _⟩ := mem_gridCells.mp hb
    left
    show a < a2
    omega

lemma foldl_chooseBetter (l : List (ℕ × ℕ × ℚ)) :
    ∀ b : ℕ × ℕ × ℚ, ∃ c pre post,
      List.foldl chooseBetter (some b) l = some c ∧
      b :: l = pre ++ c :: post ∧
      (∀ x ∈ pre, c.2.2 < x.2.2) ∧
      (∀ x ∈ post, c.2.2 ≤ x.2.2) := by
  induction l with
  | nil =>
    intro b
    exact ⟨b, [], [], rfl, rfl, by simp, by simp⟩
  | cons x rest ih =>
    intro b
    by_cases hx : x.2.2 < b.2.2
    · have hcb : chooseBetter (some b) x = some x := by
        simp [chooseBetter, hx]
      obtain ⟨c, pre, post, h1, h2, h3, h4⟩ := ih x
      have hcmin : c.2.2 ≤ x.2.2 := by
        have hxmem : x ∈ pre ++ c :: post := h2 ▸ List.mem_cons_self x rest
        rcases List.mem_append.mp hxmem with hp | hcp
        · exact le_of_lt (h3 x hp)
        · rcases List.mem_cons.mp hcp with heq | hpost
          · rw [heq]
          · exact h4 x hpost
      refine ⟨c, b :: pre, post, ?_, ?_, ?_, h4⟩
      · show List.foldl chooseBetter (chooseBetter (some b) x) rest = some c
        rw [hcb]
        exact h1
      · show b :: x :: rest = (b :: pre) ++ c :: post
        rw [List.cons_append, ← h2]
      · intro y hy
        rcases List.mem_cons.mp hy with heq | hy2
        · rw [heq]
          exact lt_of_le_of_lt hcmin hx
        · exact h3 y hy2
    · have hcb : chooseBetter (some b) x = some b := by
        simp [chooseBetter, hx]
      have hble : b.2.2 ≤ x.2.2 := le_of_not_lt hx
      obtain ⟨c, pre, post, h1, h2, h3, h4⟩ := ih b
      cases pre with
      | nil =>
        simp only [List.nil_append] at h2
        have hbc : b = c := (List.cons.injEq _ _ _ _ ▸ h2).1
        have hrp : rest = post := (List.cons.injEq _ _ _ _ ▸ h2).2
        subst hbc
        subst hrp
        refine ⟨b, [], x :: rest, ?_, rfl, by simp, ?_⟩
        · show List.foldl chooseBetter (chooseBetter (some b) x) rest = some b
          rw [hcb]
          exact h1
        · intro y hy
          rcases List.mem_cons.mp hy with heq | hy2
          · rw [heq]; exact hble
          · exact h4 y hy2
      | cons p pre2 =>
        have hpb : b = p := (List.cons.injEq _ _ _ _ ▸ h2).1
        have hrest : rest = pre2 ++ c :: post :=
          (List.cons.injEq _ _ _ _ ▸ h2).2
        have hcp : c.2.2 < b.2.2 := by
          have := h3 p (List.mem_cons_self p pre2)
          rwa [← hpb] at this
        refine ⟨c, b :: x :: pre2, post, ?_, ?_, ?_, h4⟩
        · show List.foldl chooseBetter (chooseBetter (some b) x) rest = some c
          rw [hcb]
          exact h1
        · show b :: x :: rest = b :: x :: (pre2 ++ c :: post)
          rw [hrest]
        · intro y hy
          rcases List.mem_cons.mp hy with heq | hy2
          · rw [heq]; exact hcp
          · rcases List.mem_cons.mp hy2 with heq2 | hy3
            · rw [heq2]; exact lt_of_lt_of_le hcp hble
            · exact h3 y (List.mem_cons_of_mem p hy3)

lemma min_of_decomp {c : ℕ × ℕ × ℚ} {l pre post : List (ℕ × ℕ × ℚ)}
    (h2 : l = pre ++ c :: post) (h3 : ∀ x ∈ pre, c.2.2 < x.2.2)
    (h4 : ∀ x ∈ post, c.2.2 ≤ x.2.2) :
    ∀ y ∈ l, c.2.2 ≤ y.2.2 := by
  intro y hy
  rw [h2] at hy
  rcases List.mem_append.mp hy with hp | hcp
  · exact le_of_lt (h3 y hp)
  · rcases List.mem_cons.mp hcp with heq | hpost
    · rw [heq]
    · exact h4 y hpost

lemma find_minimum_spec {f : Field2D} (hne : cellsOf f ≠ []) :
    ∃ c pre post, find_minimum f = some c ∧
      cellsOf f = pre ++ c :: post ∧
      (∀ x ∈ pre, c.2.2 < x.2.2) ∧
      (∀ x ∈ post, c.2.2 ≤ x.2.2) := by
  rcases hcl : cellsOf f with _ | ⟨b, l⟩
  · exact absurd hcl hne
  · obtain ⟨c, pre, post, h1, h2, h3, h4⟩ := foldl_chooseBetter l b
    refine ⟨c, pre, post, ?_, ?_, h3, h4⟩
    · unfold find_minimum
      rw [hcl]
      exact h1
    · exact h2

/-- Claim C1: for every masked, region-sliced 2D field containing at
least one valid (non-missing) cell, `find_minimum` returns the
coordinate and value of a valid cell whose pressure value is less than
or equal to the value of every valid cell of the field. -/
theorem c1_find_minimum_global_min (f : Field2D)
    (h : ∃ i j v, validCellAt f i j v) :
    ∃ i j v, find_minimum f = some (i, j, v) ∧ validCellAt f i j v ∧
      ∀ i2 j2 v2, validCellAt f i2 j2 v2 → v ≤ v2 := by
  obtain ⟨i0, j0, v0, h0⟩ := h
  have hmem : (i0, j0, v0) ∈ cellsOf f := mem_cellsOf.mpr h0
  have hne : cellsOf f ≠ [] := by
    intro hnil
    rw [hnil] at hmem
    exact List.not_mem_nil _ hmem
  obtain ⟨c, pre, post, h1, h2, h3, h4⟩ := find_minimum_spec hne
  refine ⟨c.1, c.2.1, c.2.2, h1, ?_, ?_⟩
  · have hcmem : c ∈ cellsOf f := by
      rw [h2]
      exact List.mem_append_right _ (List.mem_cons_self _ _)
    exact mem_cellsOf.mp hcmem
  · intro i2 j2 v2 hv
    exact min_of_decomp h2 h3 h4 _ (mem_cellsOf.mpr hv)

/-- Claim C1 witness: a concrete field with valid cells, whose minimum
is the cell (1, 0) of value 2. -/
theorem c1_witness :
    ∃ i j v,
      find_minimum [[none, some (3 : ℚ)], [some 2, some 5]] = some (i, j, v) ∧
      validCellAt [[none, some (3 : ℚ)], [some 2, some 5]] i j v ∧
      ∀ i2 j2 v2,
        validCellAt [[none, some (3 : ℚ)], [some 2, some 5]] i2 j2 v2 →
          v ≤ v2 :=
  c1_find_minimum_global_min _ ⟨1, 0, 2, by decide⟩

/-- Claim C8: `find_minimum` is a deterministic function of the field,
and among valid cells tied at the returned minimum value it returns the
cell encountered first in the fixed traversal order: ascending latitude
index, then ascending longitude index (any other tied cell lies at a
strictly larger latitude index, or at the same latitude index and a
longitude index not smaller). -/
theorem c8_tie_break (f : Field2D) (i j : ℕ) (v : ℚ)
    (h : find_minimum f = some (i, j, v)) :
    (∀ i2 j2 v2, validCellAt f i2 j2 v2 → v ≤ v2) ∧
    (∀ i2 j2, validCellAt f i2 j2 v → i < i2 ∨ (i = i2 ∧ j ≤ j2)) := by
  have hne : cellsOf f ≠ [] := by
    intro hnil
    unfold find_minimum at h
    rw [hnil] at h
    simp at h
  obtain ⟨c, pre, post, h1, h2, h3, h4⟩ := find_minimum_spec hne
  have hceq : c = (i, j, v) := by
    rw [h1] at h
    exact Option.some.inj h
  subst hceq
  constructor
  · intro i2 j2 v2 hv
    exact min_of_decomp h2 h3 h4 _ (mem_cellsOf.mpr hv)
  · intro i2 j2 hv
    have hy : (i2, j2, v) ∈ pre ++ (i, j, v) :: post := by
      rw [← h2]
      exact mem_cellsOf.mpr hv
    have hpw : (pre ++ (i, j, v) :: post).Pairwise cellLt := by
      rw [← h2]
      exact gridCells_pairwise
    rcases List.mem_append.mp hy with hp | hcp
    · have hlt := h3 _ hp
      exact absurd hlt (lt_irrefl v)
    · rcases List.mem_cons.mp hcp with heq | hpost
      · obtain ⟨he1, he2, _⟩ : i2 = i ∧ j2 = j ∧ v = v := by
          simpa [Prod.ext_iff] using heq
        right
        omega
      · have hcons := (List.pairwise_append.mp hpw).2.1
        have hrel := List.rel_of_pairwise_cons hcons hpost
        rcases hrel with hlt | ⟨heq, hlt⟩
        · left
          exact hlt
        · right
          exact ⟨heq, le_of_lt hlt⟩

/-- Claim C8 witness: a concrete field with two cells tied at the
minimum value 3, at traversal positions (0, 1) and (1, 0); the first
one in traversal order is returned, and the theorem places the other
tied cell after it. -/
theorem c8_witness :
    find_minimum [[some (5 : ℚ), some 3], [some 3, some 9]]
      = some (0, 1, 3) ∧
    (0 < 1 ∨ (0 = 1 ∧ 1 ≤ 0)) :=
  ⟨by decide,
   (c8_tie_break [[some (5 : ℚ), some 3], [some 3, some 9]] 0 1 3
     (by decide)).2 1 0 (by decide)⟩

lemma parseRow_recordToRow (r : DetectionRecord) :
    parseRow (recordToRow r) = some r := rfl

lemma step_time (p : AslParams) (ts : TimeStep) :
    (step p ts).time = ts.time := by
  unfold step
  cases stepCore p ts.field with
  | none => rfl
  | some q => rfl

lemma map_step_time (p : AslParams) :
    ∀ l : List TimeStep,
      (l.map (step p)).map DetectionRecord.time = l.map TimeStep.time := by
  intro l
  induction l with
  | nil => rfl
  | cons ts rest ih => simp [step_time, ih]

lemma zipWith_mask_none {thr : ℚ} (hthr : thr < 1) :
    ∀ (frow mrow : List ℚ), (∀ v ∈ mrow, v = 1) →
      ∀ cell ∈ List.zipWith
          (fun v frac => if thr < frac then none else some v) frow mrow,
        cell = (none : Option ℚ) := by
  intro frow
  induction frow with
  | nil =>
    intro mrow hm cell hc
    simp at hc
  | cons v vs ih =>
    intro mrow hm cell hc
    cases mrow with
    | nil => simp at hc
    | cons m ms =>
      have hm1 : m = 1 := hm m (List.mem_cons_self m ms)
      rcases List.mem_cons.mp hc with heq | htail
      · rw [heq, hm1]
        simp [hthr]
      · exact ih ms (fun x hx => hm x (List.mem_cons_of_mem m hx)) cell htail

lemma apply_mask_all_none {thr : ℚ} (hthr : thr < 1) :
    ∀ (field mask : List (List ℚ)), (∀ row ∈ mask, ∀ v ∈ row, v = 1) →
      ∀ row ∈ apply_mask field mask thr, ∀ cell ∈ row, cell = none := by
  intro field
  induction field with
  | nil =>
    intro mask hm row hr
    simp [apply_mask] at hr
  | cons frow ftl ih =>
    intro mask hm row hr
    cases mask with
    | nil => simp [apply_mask] at hr
    | cons mrow mtl =>
      rcases List.mem_cons.mp hr with heq | htail
      · intro cell hc
        rw [heq] at hc
        exact zipWith_mask_none hthr frow mrow
          (hm mrow (List.mem_cons_self mrow mtl)) cell hc
      · exact ih mtl (fun x hx => hm x (List.mem_cons_of_mem mrow hx)) row htail

lemma rowCells_nil {i : ℕ} {row : List (Option ℚ)}
    (h : ∀ cell ∈ row, cell = none) :
    ∀ {j : ℕ}, rowCells i j row = [] := by
  induction row with
  | nil => intro j; rfl
  | cons o rest ih =>
    intro j
    have ho : o = none := h o (List.mem_cons_self o rest)
    subst ho
    simp only [rowCells]
    exact ih (fun c hc => h c (List.mem_cons_of_mem none hc))

lemma gridCells_nil {f : Field2D}
    (h : ∀ row ∈ f, ∀ cell ∈ row, cell = none) :
    ∀ {i : ℕ}, gridCells i f = [] := by
  induction f with
  | nil => intro i; rfl
  | cons row rest ih =>
    intro i
    simp only [gridCells]
    rw [rowCells_nil (h row (List.mem_cons_self row rest)),
        ih (fun r hr => h r (List.mem_cons_of_mem row hr))]
    rfl

lemma find_minimum_all_none {f : Field2D}
    (h : ∀ row ∈ f, ∀ cell ∈ row, cell = none) :
    find_minimum f = none := by
  unfold find_minimum cellsOf
  rw [gridCells_nil h]
  rfl

lemma step_invalid (p : AslParams) (ts : TimeStep)
    (h : find_minimum (apply_mask ts.field p.mask p.threshold) = none) :
    (step p ts).valid = false := by
  simp [step, stepCore, h]

/-- Claim C2: for every time step whose detection succeeds (validity
flag true), the relative center pressure equals the actual center
pressure minus the reference pressure, the reference is exactly the mean
of the valid cells of the configured latitude band of the masked field
(a quantity computed from the field and band alone, never from the
detected minimum), and subtracting that same reference from any detected
value gives the corresponding relative pressure, showing the reference
does not depend on the location or value of the detected minimum. -/
theorem c2_relative_center_pressure (p : AslParams) (ts : TimeStep)
    (h : (step p ts).valid = true) :
    (step p ts).relCenPres = (step p ts).actCenPres - (step p ts).refPres ∧
    reference p.bandLo p.bandHi (apply_mask ts.field p.mask p.threshold)
      = some ((step p ts).refPres) ∧
    ∀ v2 : ℚ,
      relative_pressure p.bandLo p.bandHi
          (apply_mask ts.field p.mask p.threshold) v2
        = some (v2 - (step p ts).refPres) := by
  rcases hsc : stepCore p ts.field with _ | ⟨lon, lat, act, rel, r⟩
  · rw [step, hsc] at h
    simp at h
  · have hstep : step p ts =
        { time := ts.time, lon := lon, lat := lat, actCenPres := act,
          relCenPres := rel, refPres := r, valid := true } := by
      rw [step, hsc]
    rcases hm : find_minimum (apply_mask ts.field p.mask p.threshold)
      with _ | ⟨i, j, v⟩
    · rw [stepCore, hm] at hsc
      simp at hsc
    · rcases href : reference p.bandLo p.bandHi
          (apply_mask ts.field p.mask p.threshold) with _ | rr
      · rw [stepCore, hm, href] at hsc
        simp at hsc
      · rw [stepCore, hm, href] at hsc
        obtain ⟨h1, h2, h3, h4, h5⟩ :
            p.lons.getD j 0 = lon ∧ p.lats.getD i 0 = lat ∧
            v = act ∧ v - rr = rel ∧ rr = r := by
          simpa [Prod.ext_iff] using hsc
        subst h3
        subst h4
        subst h5
        refine ⟨?_, ?_, ?_⟩
        · rw [hstep]
        · rw [hstep, ← href]
        · intro v2
          rw [hstep]
          show (reference p.bandLo p.bandHi
              (apply_mask ts.field p.mask p.threshold)).map (fun x => v2 - x)
            = some (v2 - rr)
          rw [href]
          rfl

/-- Hand-computed fixture configuration for the background correction:
ocean-only mask, threshold zero, band covering the single row. -/
def fixtureParams : AslParams :=
  { mask := [[0, 0]], threshold := 0, bandLo := 0, bandHi := 0,
    lats := [-70], lons := [200, 210] }

/-- Hand-computed fixture time step: one row with pressures 2 and 4;
the minimum is 2, the band mean is 3, the relative pressure is -1. -/
def fixtureStep : TimeStep :=
  { time := 3, field := [[2, 4]] }

/-- Claim C2 witness: on the hand-computed fixture the detection is
valid and the relative center pressure equals the actual center pressure
minus the reference pressure. -/
theorem c2_witness :
    (step fixtureParams fixtureStep).valid = true ∧
    (step fixtureParams fixtureStep).relCenPres
      = (step fixtureParams fixtureStep).actCenPres
        - (step fixtureParams fixtureStep).refPres := by
  have hv : (step fixtureParams fixtureStep).valid = true := by
    decide
  exact ⟨hv, (c2_relative_center_pressure fixtureParams fixtureStep hv).1⟩

/-- Claim C4: for a calculator with loaded data, a non-populated table
and exactly 11 input time steps, `calculate` succeeds and produces a
table with exactly 11 rows, one record per input time step with the
timestamps in input order, every row serializing to exactly 7 columns
and parsing back fully populated (no partial records). -/
theorem c4_calculate_shape (c : ASLCalc) (h1 : c.loaded = true)
    (h2 : c.state ≠ TableState.populated) (h3 : c.steps.length = 11) :
    calculate false c
      = CalcOutcome.ok
          { c with state := TableState.populated,
                   table := c.steps.map (step c.params) } ∧
    (c.steps.map (step c.params)).length = 11 ∧
    (c.steps.map (step c.params)).map DetectionRecord.time
      = c.steps.map TimeStep.time ∧
    ∀ r ∈ c.steps.map (step c.params),
      (recordToRow r).length = 7 ∧ parseRow (recordToRow r) = some r := by
  refine ⟨?_, ?_, map_step_time c.params c.steps, ?_⟩
  · simp [calculate, h1, h2]
  · simp [h3]
  · intro r hr
    obtain ⟨ts, hts, rfl⟩ := List.mem_map.mp hr
    exact ⟨rfl, parseRow_recordToRow _⟩

/-- Configuration with no grid cells at all, used by shape fixtures. -/
def emptyParams : AslParams :=
  { mask := [], threshold := 0, bandLo := 0, bandHi := 0,
    lats := [], lons := [] }

/-- Fixture calculator with 11 monthly time steps. -/
def elevenStepCalc : ASLCalc :=
  { loaded := true, params := emptyParams,
    steps := [⟨1, []⟩, ⟨2, []⟩, ⟨3, []⟩, ⟨4, []⟩, ⟨5, []⟩, ⟨6, []⟩,
              ⟨7, []⟩, ⟨8, []⟩, ⟨9, []⟩, ⟨10, []⟩, ⟨11, []⟩],
    state := TableState.empty, table := [] }

/-- Claim C4 witness: the 11-step fixture produces an 11-row, 7-column
table in time order. -/
theorem c4_witness :
    calculate false elevenStepCalc
      = CalcOutcome.ok
          { elevenStepCalc with state := TableState.populated,
                                table := elevenStepCalc.steps.map (step elevenStepCalc.params) } ∧
    (elevenStepCalc.steps.map (step elevenStepCalc.params)).length = 11 ∧
    (elevenStepCalc.steps.map
        (step elevenStepCalc.params)).map DetectionRecord.time
      = elevenStepCalc.steps.map TimeStep.time ∧
    ∀ r ∈ elevenStepCalc.steps.map (step elevenStepCalc.params),
      (recordToRow r).length = 7 ∧ parseRow (recordToRow r) = some r :=
  c4_calculate_shape elevenStepCalc rfl (by decide) rfl

/-- Claim C5: when every cell of the search region mask is fully land
(fraction 1) and the mask threshold is below 1, every time step fails
detection, yet `calculate` does not raise: it completes the full pass,
returns a table with one row per time step, marks every row invalid via
the validity flag, and ends in the POPULATED state. -/
theorem c5_all_land_recovered (c : ASLCalc) (h1 : c.loaded = true)
    (h2 : c.state ≠ TableState.populated)
    (hmask : ∀ row ∈ c.params.mask, ∀ v ∈ row, v = 1)
    (hthr : c.params.threshold < 1) :
    ∃ c2, calculate false c = CalcOutcome.ok c2 ∧
      c2.state = TableState.populated ∧
      c2.table.length = c.steps.length ∧
      ∀ r ∈ c2.table, r.valid = false := by
  refine ⟨{ c with state := TableState.populated,
                   table := c.steps.map (step c.params) }, ?_, rfl, by simp, ?_⟩
  · simp [calculate, h1, h2]
  · intro r hr
    obtain ⟨ts, hts, rfl⟩ := List.mem_map.mp hr
    exact step_invalid _ _
      (find_minimum_all_none
        (apply_mask_all_none hthr ts.field c.params.mask hmask))

/-- Fixture calculator whose search region is fully land. -/
def landCalc : ASLCalc :=
  { loaded := true,
    params := { mask := [[1]], threshold := 0, bandLo := 0, bandHi := 0,
                lats := [-70], lons := [200] },
    steps := [⟨1, [[1013]]⟩, ⟨2, [[995]]⟩],
    state := TableState.empty, table := [] }

/-- Claim C5 witness: the fully-land fixture completes with every row
invalid and the table populated. -/
theorem c5_witness :
    ∃ c2, calculate false landCalc = CalcOutcome.ok c2 ∧
      c2.state = TableState.populated ∧
      c2.table.length = landCalc.steps.length ∧
      ∀ r ∈ c2.table, r.valid = false :=
  c5_all_land_recovered landCalc rfl (by decide) (by decide) (by decide)

/-- Claim C6: on a calculator whose table is POPULATED, `calculate` and
`import_table` without the force directive return the recoverable
already-populated warning carrying the calculator completely unchanged,
while with the force directive the overwrite proceeds. -/
theorem c6_already_populated_guard (c : ASLCalc)
    (rows : List (List CsvCell))
    (h : c.state = TableState.populated) (hl : c.loaded = true) :
    calculate false c = CalcOutcome.alreadyPopulated c ∧
    import_table false c rows = ImportOutcome.alreadyPopulated c ∧
    calculate true c
      = CalcOutcome.ok
          { c with state := TableState.populated,
                   table := c.steps.map (step c.params) } ∧
    ∀ recs, parseTable rows = some recs →
      import_table true c rows
        = ImportOutcome.ok
            { c with state := TableState.populated, table := recs } := by
  refine ⟨?_, ?_, ?_, ?_⟩
  · simp [calculate, hl, h]
  · simp [import_table, h]
  · simp [calculate, hl, h]
  · intro recs hrecs
    simp [import_table, h, hrecs]

/-- Fixture calculator already holding a populated one-row table. -/
def populatedCalc : ASLCalc :=
  { loaded := true, params := emptyParams, steps := [],
    state := TableState.populated,
    table := [{ time := 1, lon := 0, lat := 0, actCenPres := 0,
                relCenPres := 0, refPres := 0, valid := false }] }

/-- Claim C6 witness: the populated fixture is guarded against
overwrite without force and overwritten with force. -/
theorem c6_witness :
    calculate false populatedCalc
      = CalcOutcome.alreadyPopulated populatedCalc ∧
    import_table false populatedCalc []
      = ImportOutcome.alreadyPopulated populatedCalc ∧
    calculate true populatedCalc
      = CalcOutcome.ok
          { populatedCalc with state := TableState.populated,
                               table := populatedCalc.steps.map (step populatedCalc.params) } ∧
    ∀ recs, parseTable [] = some recs →
      import_table true populatedCalc []
        = ImportOutcome.ok
            { populatedCalc with state := TableState.populated,
                                 table := recs } :=
  c6_already_populated_guard populatedCalc [] rfl rfl

/-- Claim C7: exporting any table with `export_table` and importing the
result reproduces the table exactly: every row parses back to the very
record it came from, in the same order with the same timestamps and
values (exact equality of rationals, stronger than a tolerance), and at
the calculator level a forced import of an exported table restores the
same table in the POPULATED state. -/
theorem c7_roundtrip (t : List DetectionRecord) (c : ASLCalc) :
    parseTable (export_table t) = some t ∧
    import_table true c (export_table c.table)
      = ImportOutcome.ok
          { c with state := TableState.populated, table := c.table } := by
  have hparse : ∀ l : List DetectionRecord,
      parseTable (export_table l) = some l := by
    intro l
    induction l with
    | nil => rfl
    | cons r rest ih =>
      show parseTable (recordToRow r :: export_table rest) = some (r :: rest)
      simp [parseTable, parseRow_recordToRow, ih]
  refine ⟨hparse t, ?_⟩
  simp [import_table, hparse c.table]
